import Mathlib

/-!
Verification development for the Eterna DEX engine.

The definitions below are a shallow embedding of the TypeScript sources:
the engine worker (src/engine/engine.ts), the queue / subscription manager
(src/api/redisManager.ts), the HTTP order-submission handler
(src/api/index.ts) with its zod schema (src/lib/schema.ts), and the
configuration constants (src/config/config.ts).  Asynchronous calls that
can throw are modelled by an explicit environment recording, for one
processing attempt, which external calls succeed; the worker body is a
pure function from that environment to the list of externally visible
events (durable writes and pub/sub broadcasts) plus a flag saying whether
the job handler returned normally.
-/

namespace EternaDex

/-- Order status values stored in the Orders table and carried in
status-update messages. -/
inductive Status
  | pending
  | routing
  | building
  | submitted
  | confirmed
  | failed
  deriving DecidableEq, Repr

/-- Job payload consumed by the engine worker (lib/types.ts OrderData):
orderId plus the swap parameters. -/
structure OrderData where
  orderId : String
  tokenIn : String
  tokenOut : String
  amount : ℚ
  deriving DecidableEq, Repr

/-- A quote returned by dexHandler.getBestRoute: the chosen venue, its
price and its fee. -/
structure Route where
  dex : String
  price : ℚ
  fee : ℚ
  deriving DecidableEq, Repr

/-- Settlement result returned by a venue execute call. -/
structure SwapResult where
  txHash : String
  executedPrice : ℚ
  deriving DecidableEq, Repr

/-- Columns of the Orders table (prisma migration 20251116081034_init). -/
inductive FieldName
  | id
  | tokenIn
  | tokenOut
  | amount
  | orderType
  | status
  | selectedDex
  | executedPrice
  | txHash
  | errorMessage
  deriving DecidableEq, Repr

/-- A value written into a column by a prisma update. -/
inductive DbValue
  | str (s : String)
  | num (q : ℚ)
  | stat (s : Status)
  deriving DecidableEq, Repr

/-- The message unit published on the order-updates channel
(publishOrderUpdate's argument). -/
structure StatusUpdate where
  orderId : String
  status : Status
  message : String
  deriving DecidableEq, Repr

/-- Externally visible effects of one worker attempt: a durable
prisma.order.update carrying its data object, or a pub/sub broadcast. -/
inductive Event
  | persist (data : List (FieldName × DbValue))
  | broadcast (u : StatusUpdate)
  deriving DecidableEq, Repr

/-- Environment of one ExecuteOrder attempt: for each external call the
code makes, whether it succeeds, and the value it returns when it does.
A persist flag that is false means that prisma update throws; a none
route or swap result means getBestRoute or executeSwap throws. -/
structure Env where
  persistRoutingOk : Bool
  routeResult : Option Route
  persistBuildingOk : Bool
  persistSubmittedOk : Bool
  swapResult : Option SwapResult
  persistConfirmedOk : Bool
  persistFailedOk : Bool
  deriving DecidableEq, Repr

/-- Events of the routing transition (engine.ts lines 51-60): persist
status routing, then broadcast the routing update. -/
def routingEvents (od : OrderData) : List Event :=
  [Event.persist [(FieldName.status, DbValue.stat Status.routing)],
   Event.broadcast ⟨od.orderId, Status.routing, "finding best route"⟩]

/-- Events of the building transition (engine.ts lines 64-73): persist
status building together with the selected venue, then broadcast. -/
def buildingEvents (od : OrderData) (bestRoute : Route) : List Event :=
  [Event.persist [(FieldName.status, DbValue.stat Status.building),
                  (FieldName.selectedDex, DbValue.str bestRoute.dex)],
   Event.broadcast ⟨od.orderId, Status.building,
     "building transaction on " ++ bestRoute.dex⟩]

/-- Events of the submitted transition (engine.ts lines 76-85). -/
def submittedEvents (od : OrderData) (bestRoute : Route) : List Event :=
  [Event.persist [(FieldName.status, DbValue.stat Status.submitted)],
   Event.broadcast ⟨od.orderId, Status.submitted,
     "submitted transaction on  network via " ++ bestRoute.dex⟩]

/-- Events of the confirmed transition (engine.ts lines 94-102): persist
status confirmed together with txHash and executedPrice, then
broadcast. -/
def confirmedEvents (od : OrderData) (result : SwapResult) : List Event :=
  [Event.persist [(FieldName.status, DbValue.stat Status.confirmed),
                  (FieldName.txHash, DbValue.str result.txHash),
                  (FieldName.executedPrice, DbValue.num result.executedPrice)],
   Event.broadcast ⟨od.orderId, Status.confirmed, "transaction successfull"⟩]

/-- Events of the catch block (engine.ts lines 103-114): persist status
failed, then broadcast the failed update. -/
def failedEvents (od : OrderData) : List Event :=
  [Event.persist [(FieldName.status, DbValue.stat Status.failed)],
   Event.broadcast ⟨od.orderId, Status.failed, "order execution failed:"⟩]

/-- The catch block of Engine.ExecuteOrder: persist status failed, then
broadcast a failed update.  publishOrderUpdate swallows its own errors,
so only the prisma update can rethrow; when it does, the handler itself
throws (second component false). -/
def catchBlock (od : OrderData) (persistFailedOk : Bool) (evs : List Event) :
    List Event × Bool :=
  if persistFailedOk then (evs ++ failedEvents od, true)
  else (evs, false)

/-- Engine.ExecuteOrder (src/engine/engine.ts, lines 48-115): the try
body persists and broadcasts routing, calls getBestRoute, persists and
broadcasts building (with selectedDex), persists and broadcasts
submitted, calls executeSwap, persists and broadcasts confirmed (with
txHash and executedPrice); any throw enters the catch block.  Returns
the event trace and whether the handler returned normally (true means
the job completes successfully from the queue's point of view). -/
def ExecuteOrder (env : Env) (od : OrderData) : List Event × Bool :=
  if ¬ env.persistRoutingOk then catchBlock od env.persistFailedOk []
  else
    let e1 := routingEvents od
    match env.routeResult with
    | none => catchBlock od env.persistFailedOk e1
    | some bestRoute =>
      if ¬ env.persistBuildingOk then catchBlock od env.persistFailedOk e1
      else
        let e2 := e1 ++ buildingEvents od bestRoute
        if ¬ env.persistSubmittedOk then catchBlock od env.persistFailedOk e2
        else
          let e3 := e2 ++ submittedEvents od bestRoute
          match env.swapResult with
          | none => catchBlock od env.persistFailedOk e3
          | some result =>
            if ¬ env.persistConfirmedOk then catchBlock od env.persistFailedOk e3
            else (e3 ++ confirmedEvents od result, true)

/-- Status column written by one persist data object, when present. -/
def statusOf (data : List (FieldName × DbValue)) : Option Status :=
  (data.filterMap fun fv =>
    match fv with
    | (FieldName.status, DbValue.stat s) => some s
    | _ => none).head?

/-- Statuses of the durable writes in a trace, in order. -/
def persistedStatuses (evs : List Event) : List Status :=
  evs.filterMap fun e =>
    match e with
    | Event.persist d => statusOf d
    | Event.broadcast _ => none

/-- Statuses of the broadcasts in a trace, in order. -/
def broadcastStatuses (evs : List Event) : List Status :=
  evs.filterMap fun e =>
    match e with
    | Event.persist _ => none
    | Event.broadcast u => some u.status

/-- The happy-path status chain of the state machine. -/
def happyPath : List Status :=
  [Status.pending, Status.routing, Status.building, Status.submitted, Status.confirmed]

/-- A status sequence is valid when it is a prefix of the happy path,
possibly followed by one final failed. -/
def ValidStatusSeq (l : List Status) : Prop :=
  ∃ n, l = happyPath.take n ∨ l = happyPath.take n ++ [Status.failed]

/-- The happy-path chain of statuses the engine broadcasts (pending is
written at creation by the API and never broadcast by the engine). -/
def broadcastHappyPath : List Status :=
  [Status.routing, Status.building, Status.submitted, Status.confirmed]

/-- A broadcast sequence is valid when it is a prefix of the engine's
broadcast chain, possibly followed by one final failed. -/
def ValidBroadcastSeq (l : List Status) : Prop :=
  ∃ n, l = broadcastHappyPath.take n ∨ l = broadcastHappyPath.take n ++ [Status.failed]

/-- The columns the engine worker is allowed to touch after creation
(updatedAt is maintained automatically by prisma and not part of an
update's data object). -/
def allowedUpdateFields : List FieldName :=
  [FieldName.status, FieldName.selectedDex, FieldName.executedPrice,
   FieldName.txHash, FieldName.errorMessage]

/-- Tells whether one attempt raises somewhere in the try body: some
external call before the confirmed write fails. -/
def attemptThrows (env : Env) : Bool :=
  !env.persistRoutingOk || env.routeResult.isNone || !env.persistBuildingOk ||
  !env.persistSubmittedOk || env.swapResult.isNone || !env.persistConfirmedOk

/-- Column names written by one event. -/
def fieldsWritten : Event → List FieldName
  | Event.persist d => d.map Prod.fst
  | Event.broadcast _ => []

/-- Durable Orders row (prisma migration 20251116081034_init); nullable
columns are Option. -/
structure OrderRecord where
  id : String
  tokenIn : String
  tokenOut : String
  amount : ℚ
  orderType : String
  status : Status
  selectedDex : Option String
  executedPrice : Option ℚ
  txHash : Option String
  errorMessage : Option String
  deriving DecidableEq, Repr

/-- Apply one column write to a row; a write whose value does not fit
the column leaves the row unchanged. -/
def applyField (r : OrderRecord) : FieldName × DbValue → OrderRecord
  | (FieldName.id, DbValue.str s) => { r with id := s }
  | (FieldName.tokenIn, DbValue.str s) => { r with tokenIn := s }
  | (FieldName.tokenOut, DbValue.str s) => { r with tokenOut := s }
  | (FieldName.amount, DbValue.num q) => { r with amount := q }
  | (FieldName.orderType, DbValue.str s) => { r with orderType := s }
  | (FieldName.status, DbValue.stat s) => { r with status := s }
  | (FieldName.selectedDex, DbValue.str s) => { r with selectedDex := some s }
  | (FieldName.executedPrice, DbValue.num q) => { r with executedPrice := some q }
  | (FieldName.txHash, DbValue.str s) => { r with txHash := some s }
  | (FieldName.errorMessage, DbValue.str s) => { r with errorMessage := some s }
  | (_, _) => r

/-- Apply the durable writes of a trace, in order, to a row. -/
def applyPersists (evs : List Event) (r : OrderRecord) : OrderRecord :=
  evs.foldl (fun acc e =>
    match e with
    | Event.persist d => d.foldl applyField acc
    | Event.broadcast _ => acc) r

/-- Kind of an externally visible event. -/
inductive EvKind
  | persistK
  | broadcastK
  deriving DecidableEq, Repr

/-- Shape of an event: its kind and the status it carries. -/
def evTag : Event → EvKind × Option Status
  | Event.persist d => (EvKind.persistK, statusOf d)
  | Event.broadcast u => (EvKind.broadcastK, some u.status)

/-- Shape of one completed transition: persist the status, then
broadcast it. -/
def pairShape (s : Status) : List (EvKind × Option Status) :=
  [(EvKind.persistK, some s), (EvKind.broadcastK, some s)]

/-- One value of RedisManager's OrderMap: the status string and the set
of connected client handles.  Handles are opaque references compared by
identity, modelled as Nat; a JS Set is modelled by its element list in
insertion order, without duplicates. -/
structure OrderEntry where
  status : String
  clients : List Nat
  deriving DecidableEq, Repr

/-- The in-memory OrderMap of RedisManager: a JS Map, modelled as an
association list in insertion order with unique keys. -/
abbrev OrderMap := List (String × OrderEntry)

/-- JS Map.get: first entry with the given key. -/
def mapGet : OrderMap → String → Option OrderEntry
  | [], _ => none
  | (k, v) :: rest, key => if k = key then some v else mapGet rest key

/-- Update in place the entry holding the given key, if any. -/
def mapUpdate : OrderMap → String → (OrderEntry → OrderEntry) → OrderMap
  | [], _, _ => []
  | (k, v) :: rest, key, f =>
    if k = key then (k, f v) :: rest else (k, v) :: mapUpdate rest key f

/-- JS Map.set: replace the existing entry or append a new one. -/
def mapSet (m : OrderMap) (k : String) (v : OrderEntry) : OrderMap :=
  match mapGet m k with
  | none => m ++ [(k, v)]
  | some _ => mapUpdate m k (fun _ => v)

/-- JS Set.add: append the element when absent. -/
def setAdd (s : List Nat) (c : Nat) : List Nat :=
  if c ∈ s then s else s ++ [c]

/-- JS Set.delete: remove the element. -/
def setDelete (s : List Nat) (c : Nat) : List Nat :=
  s.filter (fun x => x ≠ c)

/-- RedisManager.SubscribeToOrderUpdates (redisManager.ts line 32-34):
OrderMap.get(orderId)?.clients.add(client).  With optional chaining a
missing key is a silent no-op; otherwise the handle is added to that
entry's client set in place. -/
def SubscribeToOrderUpdates (m : OrderMap) (orderId : String) (client : Nat) : OrderMap :=
  match mapGet m orderId with
  | none => m
  | some _ => mapUpdate m orderId (fun e => ⟨e.status, setAdd e.clients client⟩)

/-- RedisManager.UnsubscribeFromOrderUpdates (redisManager.ts line
36-38): OrderMap.get(orderId)?.clients.delete(client).  A missing key is
a silent no-op; otherwise the handle is removed from that entry's client
set in place; the entry itself is never removed. -/
def UnsubscribeFromOrderUpdates (m : OrderMap) (orderId : String) (client : Nat) : OrderMap :=
  match mapGet m orderId with
  | none => m
  | some _ => mapUpdate m orderId (fun e => ⟨e.status, setDelete e.clients client⟩)

/-- Options object passed to BullMQ Queue.add; none models an absent
field. -/
structure JobOpts where
  attempts : Option Nat
  backoffType : Option String
  backoffDelay : Option Nat
  deriving DecidableEq, Repr

/-- One recorded call to BullMQ Queue.add. -/
structure QueueAddCall where
  jobName : String
  jobData : OrderData
  opts : JobOpts
  deriving DecidableEq, Repr

/-- CONFIG.MAX_RETRY (src/config/config.ts). -/
def CONFIG_MAX_RETRY : Nat := 3

/-- CONFIG.BACK_OFF (src/config/config.ts): type exponential, delay
5000 ms. -/
def CONFIG_BACK_OFF : String × Nat := ("exponential", 5000)

/-- RedisManager.addOrderExecutionJob (redisManager.ts lines 20-30):
generates a fresh UUID (supplied here as the uuid argument), calls
Queue.add("execute_order", orderData) passing no job options, records
the UUID in OrderMap with status pending and an empty client set, and
returns the UUID. -/
def addOrderExecutionJob (uuid : String) (orderData : OrderData) (m : OrderMap) :
    String × OrderMap × QueueAddCall :=
  (uuid, mapSet m uuid ⟨"pending", []⟩,
   { jobName := "execute_order", jobData := orderData, opts := ⟨none, none, none⟩ })

/-- The number of attempts BullMQ runs for a job before giving up: the
opts.attempts value, defaulting to 1 when absent. -/
def bullmqMaxAttempts (opts : JobOpts) : Nat :=
  opts.attempts.getD 1

/-- Queue driver: run up to the given number of attempts of the job
handler, numbering attempts from i, stopping at the first attempt whose
handler returns normally.  Returns the number of attempts actually run
and the concatenation of their traces. -/
def runAttemptsFrom (attempt : Nat → List Event × Bool) (i : Nat) : Nat → Nat × List Event
  | 0 => (0, [])
  | n + 1 =>
    let r := attempt i
    if r.2 then (1, r.1)
    else
      let rest := runAttemptsFrom attempt (i + 1) n
      (rest.1 + 1, r.1 ++ rest.2)

/-- Run a job under BullMQ retry accounting, attempts numbered from 1. -/
def runWithRetries (attempt : Nat → List Event × Bool) (maxAttempts : Nat) :
    Nat × List Event :=
  runAttemptsFrom attempt 1 maxAttempts

/-- Raw request body for POST /execute-order after JSON parsing,
restricted to the fields the zod schema inspects; a missing userAddress
is none. -/
structure SwapRequest where
  userAddress : Option String
  tokenIn : String
  tokenOut : String
  amount : ℚ
  deriving DecidableEq, Repr

/-- The supported token symbols (src/lib/schema.ts). -/
def tokens : List String := ["SOL", "USDC", "USDT", "BTC", "ETH"]

/-- RequestSwapSchema.safeParse (src/lib/schema.ts lines 13-18):
userAddress a non-empty string, tokenIn and tokenOut members of the
supported set, amount strictly positive. -/
def requestSwapValid (r : SwapRequest) : Bool :=
  (match r.userAddress with
   | some s => decide (1 ≤ s.length)
   | none => false)
  && tokens.contains r.tokenIn
  && tokens.contains r.tokenOut
  && decide (0 < r.amount)

/-- Side effects of the POST /execute-order handler: creating the
durable order row, and enqueueing the execution job. -/
inductive ApiAction
  | createOrder (tokenIn tokenOut : String) (amount : ℚ) (status : Status)
  | enqueue (call : QueueAddCall)
  deriving DecidableEq, Repr

/-- POST /execute-order handler (src/api/index.ts lines 25-63): a schema
validation failure or equal tokenIn and tokenOut returns 400 before any
side effect; otherwise the order row is created with status pending, the
job is enqueued through addOrderExecutionJob, and 200 is returned.  The
dbId argument stands for the id prisma assigns to the created row, the
uuid argument for the UUID addOrderExecutionJob generates. -/
def executeOrderHandler (uuid dbId : String) (m : OrderMap) (r : SwapRequest) :
    Nat × List ApiAction × OrderMap :=
  if ¬ requestSwapValid r then (400, [], m)
  else if r.tokenIn = r.tokenOut then (400, [], m)
  else
    let od : OrderData := ⟨dbId, r.tokenIn, r.tokenOut, r.amount⟩
    let added := addOrderExecutionJob uuid od m
    (200, [ApiAction.createOrder r.tokenIn r.tokenOut r.amount Status.pending,
           ApiAction.enqueue added.2.2], added.2.1)

/-- Effective cost of a quote: price times one plus fee (spec section
4.2 selection rule). -/
def effectiveCost (q : Route) : ℚ :=
  q.price * (1 + q.fee)

/-- Modelled from the spec: the selection step of dexHandler.getBestRoute.
The file src/engine/services.ts is not among the provided sources; only
its callers and the readme sketch of its structure are.  Per spec
section 4.2 the router gathers one quote per registered venue adapter,
listed in adapter declaration order, and selects the quote minimizing
effective cost price * (1 + fee), ties broken in favour of the earlier
adapter. -/
def getBestRoute (first : Route) (rest : List Route) : Route :=
  rest.foldl (fun best q => if effectiveCost q < effectiveCost best then q else best) first

/-- Number of durable failed writes in a trace. -/
def failedPersistCount (evs : List Event) : Nat :=
  (persistedStatuses evs).count Status.failed

/-- Number of failed broadcasts in a trace. -/
def failedBroadcastCount (evs : List Event) : Nat :=
  (broadcastStatuses evs).count Status.failed

/-- A concrete attempt environment in which getBestRoute throws (as does
executeSwap, never reached) while every durable write succeeds. -/
def envRouteThrows : Env :=
  ⟨true, none, true, true, none, true, true⟩

/-- A concrete valid order. -/
def odETH : OrderData :=
  ⟨"o1", "ETH", "USDC", 1⟩

/-- Helper: every attempt's outcome takes one of five shapes: the full
happy trace ending in confirmed, or the catch block applied to one of
the four possible prefixes of the try body. -/
lemma ExecuteOrder_cases (env : Env) (od : OrderData) :
    (∃ r res, env.routeResult = some r ∧ env.swapResult = some res ∧
      env.persistRoutingOk = true ∧ env.persistBuildingOk = true ∧
      env.persistSubmittedOk = true ∧ env.persistConfirmedOk = true ∧
      ExecuteOrder env od =
        (routingEvents od ++ buildingEvents od r ++ submittedEvents od r ++
          confirmedEvents od res, true)) ∨
    ExecuteOrder env od = catchBlock od env.persistFailedOk [] ∨
    ExecuteOrder env od = catchBlock od env.persistFailedOk (routingEvents od) ∨
    (∃ r, ExecuteOrder env od =
      catchBlock od env.persistFailedOk (routingEvents od ++ buildingEvents od r)) ∨
    (∃ r, ExecuteOrder env od =
      catchBlock od env.persistFailedOk
        (routingEvents od ++ buildingEvents od r ++ submittedEvents od r)) := by
  rcases env with ⟨pr, rr, pb, ps, sr, pc, pf⟩
  cases pr <;> rcases rr with _ | r <;> cases pb <;> cases ps <;>
    rcases sr with _ | s <;> cases pc <;>
    first
      | exact Or.inl ⟨r, s, rfl, rfl, rfl, rfl, rfl, rfl, rfl⟩
      | exact Or.inr (Or.inl rfl)
      | exact Or.inr (Or.inr (Or.inl rfl))
      | exact Or.inr (Or.inr (Or.inr (Or.inl ⟨r, rfl⟩)))
      | exact Or.inr (Or.inr (Or.inr (Or.inr ⟨r, rfl⟩)))

/-- Helper: the persisted-status history (creation's pending write
followed by the engine's durable writes) of any attempt is valid. -/
lemma persistedStatuses_valid (env : Env) (od : OrderData) :
    ValidStatusSeq (Status.pending :: persistedStatuses (ExecuteOrder env od).1) := by
  rcases ExecuteOrder_cases env od with ⟨r, res, hrr, hsr, hp1, hp2, hp3, hp4, h⟩ | h | h | ⟨r, h⟩ | ⟨r, h⟩ <;>
    rw [h] <;>
    first
      | exact ⟨5, Or.inl rfl⟩
      | cases env.persistFailedOk <;>
          first
            | exact ⟨1, Or.inl rfl⟩
            | exact ⟨2, Or.inl rfl⟩
            | exact ⟨3, Or.inl rfl⟩
            | exact ⟨4, Or.inl rfl⟩
            | exact ⟨1, Or.inr rfl⟩
            | exact ⟨2, Or.inr rfl⟩
            | exact ⟨3, Or.inr rfl⟩
            | exact ⟨4, Or.inr rfl⟩

/-- Helper: the broadcast-status sequence of any attempt is valid. -/
lemma broadcastStatuses_valid (env : Env) (od : OrderData) :
    ValidBroadcastSeq (broadcastStatuses (ExecuteOrder env od).1) := by
  rcases ExecuteOrder_cases env od with ⟨r, res, hrr, hsr, hp1, hp2, hp3, hp4, h⟩ | h | h | ⟨r, h⟩ | ⟨r, h⟩ <;>
    rw [h] <;>
    first
      | exact ⟨4, Or.inl rfl⟩
      | cases env.persistFailedOk <;>
          first
            | exact ⟨0, Or.inl rfl⟩
            | exact ⟨1, Or.inl rfl⟩
            | exact ⟨2, Or.inl rfl⟩
            | exact ⟨3, Or.inl rfl⟩
            | exact ⟨0, Or.inr rfl⟩
            | exact ⟨1, Or.inr rfl⟩
            | exact ⟨2, Or.inr rfl⟩
            | exact ⟨3, Or.inr rfl⟩

/-- C2: for every attempt of every order, the persisted status history
(the pending written at creation followed by the worker's durable
writes) is a prefix of pending, routing, building, submitted, confirmed,
or such a prefix followed by a final failed; the broadcast sequence is
likewise an in-order prefix of routing, building, submitted, confirmed
optionally closed by failed.  No status is persisted or broadcast out of
order, duplicated, or skipped. -/
theorem C2_status_sequences_valid (env : Env) (od : OrderData) :
    ValidStatusSeq (Status.pending :: persistedStatuses (ExecuteOrder env od).1) ∧
    ValidBroadcastSeq (broadcastStatuses (ExecuteOrder env od).1) :=
  ⟨persistedStatuses_valid env od, broadcastStatuses_valid env od⟩

/-- C6: every attempt's trace decomposes into consecutive transition
pairs, each pair persisting a status and then broadcasting that same
status; in particular no status is ever broadcast before it has been
persisted, and both effects of a transition precede every effect of the
next transition. -/
theorem C6_persist_then_broadcast (env : Env) (od : OrderData) :
    ∃ ss : List Status,
      ((ExecuteOrder env od).1).map evTag = (ss.map pairShape).flatten := by
  rcases ExecuteOrder_cases env od with ⟨r, res, hrr, hsr, hp1, hp2, hp3, hp4, h⟩ | h | h | ⟨r, h⟩ | ⟨r, h⟩ <;>
    rw [h] <;>
    first
      | exact ⟨[Status.routing, Status.building, Status.submitted, Status.confirmed], rfl⟩
      | cases env.persistFailedOk <;>
          first
            | exact ⟨[], rfl⟩
            | exact ⟨[Status.failed], rfl⟩
            | exact ⟨[Status.routing], rfl⟩
            | exact ⟨[Status.routing, Status.failed], rfl⟩
            | exact ⟨[Status.routing, Status.building], rfl⟩
            | exact ⟨[Status.routing, Status.building, Status.failed], rfl⟩
            | exact ⟨[Status.routing, Status.building, Status.submitted], rfl⟩
            | exact ⟨[Status.routing, Status.building, Status.submitted, Status.failed], rfl⟩

/-- C7: on every attempt, every durable write the worker performs
touches only the columns status, selectedDex, executedPrice, txHash,
errorMessage, and consequently the columns id, tokenIn, tokenOut,
amount of the order row are unchanged by applying the attempt's writes. -/
theorem C7_update_frame (env : Env) (od : OrderData) :
    (∀ e ∈ (ExecuteOrder env od).1, ∀ f ∈ fieldsWritten e, f ∈ allowedUpdateFields) ∧
    ∀ rec : OrderRecord,
      (applyPersists (ExecuteOrder env od).1 rec).id = rec.id ∧
      (applyPersists (ExecuteOrder env od).1 rec).tokenIn = rec.tokenIn ∧
      (applyPersists (ExecuteOrder env od).1 rec).tokenOut = rec.tokenOut ∧
      (applyPersists (ExecuteOrder env od).1 rec).amount = rec.amount := by
  rcases ExecuteOrder_cases env od with ⟨r, res, hrr, hsr, hp1, hp2, hp3, hp4, h⟩ | h | h | ⟨r, h⟩ | ⟨r, h⟩ <;>
    rw [h] <;> cases env.persistFailedOk <;>
    refine ⟨?_, fun rec => ?_⟩ <;>
    simp [catchBlock, failedEvents, routingEvents, buildingEvents, submittedEvents,
      confirmedEvents, applyPersists, applyField, fieldsWritten, allowedUpdateFields]

/-- Witness for C7 at a concrete environment, order, event and column. -/
theorem C7_update_frame_witness :
    FieldName.status ∈ allowedUpdateFields := by
  have h := C7_update_frame ⟨true, none, true, true, none, true, true⟩
    ⟨"o1", "ETH", "USDC", 1⟩
  exact h.1 (Event.persist [(FieldName.status, DbValue.stat Status.failed)])
    (by decide) FieldName.status (by decide)

/-- Helper: when some step of the try body throws and the failed write
succeeds, the attempt ends with the catch block's failed events appended
to one of the four try prefixes, and the handler returns normally. -/
lemma attemptThrows_cases (env : Env) (od : OrderData)
    (herr : attemptThrows env = true) (hpf : env.persistFailedOk = true) :
    ExecuteOrder env od = (failedEvents od, true) ∨
    ExecuteOrder env od = (routingEvents od ++ failedEvents od, true) ∨
    (∃ r, ExecuteOrder env od =
      (routingEvents od ++ buildingEvents od r ++ failedEvents od, true)) ∨
    (∃ r, ExecuteOrder env od =
      (routingEvents od ++ buildingEvents od r ++ submittedEvents od r ++
        failedEvents od, true)) := by
  rcases ExecuteOrder_cases env od with ⟨r, res, hrr, hsr, hp1, hp2, hp3, hp4, h⟩ | h | h | ⟨r, h⟩ | ⟨r, h⟩
  · rw [attemptThrows, hrr, hsr, hp1, hp2, hp3, hp4] at herr
    simp at herr
  · rw [hpf] at h
    exact Or.inl h
  · rw [hpf] at h
    exact Or.inr (Or.inl h)
  · rw [hpf] at h
    exact Or.inr (Or.inr (Or.inl ⟨r, h⟩))
  · rw [hpf] at h
    exact Or.inr (Or.inr (Or.inr ⟨r, h⟩))

/-- C1 (amended): a raised error inside an attempt is handled by the
worker itself — as long as the terminal write succeeds, the worker
immediately persists status failed to the durable record and broadcasts
a failed update as the final two events, and the job handler returns
normally, so the error is swallowed rather than reported to the Job
Queue as an attempt failure. -/
theorem C1_error_swallowed (env : Env) (od : OrderData)
    (herr : attemptThrows env = true) (hpf : env.persistFailedOk = true) :
    (∃ evs, (ExecuteOrder env od).1 = evs ++ failedEvents od) ∧
    (ExecuteOrder env od).2 = true := by
  rcases attemptThrows_cases env od herr hpf with h | h | ⟨r, h⟩ | ⟨r, h⟩ <;> rw [h]
  · exact ⟨⟨[], rfl⟩, rfl⟩
  · exact ⟨⟨routingEvents od, rfl⟩, rfl⟩
  · exact ⟨⟨routingEvents od ++ buildingEvents od r, rfl⟩, rfl⟩
  · exact ⟨⟨routingEvents od ++ buildingEvents od r ++ submittedEvents od r, rfl⟩, rfl⟩

/-- Witness for C1 at a concrete environment and order. -/
theorem C1_error_swallowed_witness :
    attemptThrows envRouteThrows = true ∧
    (∃ evs, (ExecuteOrder envRouteThrows odETH).1 = evs ++ failedEvents odETH) ∧
    (ExecuteOrder envRouteThrows odETH).2 = true :=
  ⟨by decide,
   (C1_error_swallowed envRouteThrows odETH (by decide) (by decide)).1,
   (C1_error_swallowed envRouteThrows odETH (by decide) (by decide)).2⟩

/-- C1 counterexample: for a concrete attempt in which getBestRoute
throws, the worker does immediately persist status failed to the durable
record, and the job handler completes successfully rather than
reporting an attempt failure to the Job Queue. -/
theorem C1_counterexample :
    Event.persist [(FieldName.status, DbValue.stat Status.failed)] ∈
      (ExecuteOrder envRouteThrows odETH).1 ∧
    (ExecuteOrder envRouteThrows odETH).2 = true := by
  decide

/-- C4 (amended): CONFIG declares MAX_RETRY = 3 with exponential backoff,
but addOrderExecutionJob passes no job options to Queue.add, so BullMQ's
default of a single attempt applies; moreover the worker swallows
attempt errors.  For every enqueued order whose attempt throws (with
the terminal write succeeding), exactly one attempt runs, and that
single first attempt already persists the terminal failed status exactly
once and broadcasts exactly one failed update. -/
theorem C4_single_attempt (uuid : String) (od : OrderData) (m : OrderMap)
    (env : Env) (herr : attemptThrows env = true) (hpf : env.persistFailedOk = true) :
    CONFIG_MAX_RETRY = 3 ∧
    (addOrderExecutionJob uuid od m).2.2.opts.attempts = none ∧
    bullmqMaxAttempts (addOrderExecutionJob uuid od m).2.2.opts = 1 ∧
    (runWithRetries (fun _ => ExecuteOrder env od)
      (bullmqMaxAttempts (addOrderExecutionJob uuid od m).2.2.opts)).1 = 1 ∧
    failedPersistCount (runWithRetries (fun _ => ExecuteOrder env od)
      (bullmqMaxAttempts (addOrderExecutionJob uuid od m).2.2.opts)).2 = 1 ∧
    failedBroadcastCount (runWithRetries (fun _ => ExecuteOrder env od)
      (bullmqMaxAttempts (addOrderExecutionJob uuid od m).2.2.opts)).2 = 1 := by
  rcases attemptThrows_cases env od herr hpf with h | h | ⟨r, h⟩ | ⟨r, h⟩ <;> rw [h] <;>
    exact ⟨rfl, rfl, rfl, rfl, rfl, rfl⟩

/-- Witness for C4 at a concrete uuid, order, registry and environment. -/
theorem C4_single_attempt_witness :
    attemptThrows envRouteThrows = true ∧
    (runWithRetries (fun _ => ExecuteOrder envRouteThrows odETH)
      (bullmqMaxAttempts (addOrderExecutionJob "u1" odETH []).2.2.opts)).1 = 1 ∧
    failedPersistCount (runWithRetries (fun _ => ExecuteOrder envRouteThrows odETH)
      (bullmqMaxAttempts (addOrderExecutionJob "u1" odETH []).2.2.opts)).2 = 1 :=
  ⟨by decide,
   (C4_single_attempt "u1" odETH [] envRouteThrows (by decide) (by decide)).2.2.2.1,
   (C4_single_attempt "u1" odETH [] envRouteThrows (by decide) (by decide)).2.2.2.2.1⟩

/-- C4 counterexample: the enqueue call passes no attempts option (in
particular not MAX_RETRY = 3), so for a concrete order whose every
attempt would throw, the queue driver executes exactly one attempt, not
three. -/
theorem C4_counterexample :
    (addOrderExecutionJob "u1" odETH []).2.2.opts.attempts = none ∧
    (addOrderExecutionJob "u1" odETH []).2.2.opts.attempts ≠ some CONFIG_MAX_RETRY ∧
    (runWithRetries (fun _ => ExecuteOrder envRouteThrows odETH)
      (bullmqMaxAttempts (addOrderExecutionJob "u1" odETH []).2.2.opts)).1 = 1 ∧
    (runWithRetries (fun _ => ExecuteOrder envRouteThrows odETH)
      (bullmqMaxAttempts (addOrderExecutionJob "u1" odETH []).2.2.opts)).1 ≠
      CONFIG_MAX_RETRY := by
  decide

/-- C5: for every attempt in which routing and venue execution both
succeed (and the durable writes succeed), applying the attempt's
durable writes leaves the record with status confirmed and non-null
selectedDex, executedPrice and txHash; the only write touching
selectedDex is the building transition's, and the only write touching
executedPrice or txHash is the confirmed transition's. -/
theorem C5_success_record (env : Env) (od : OrderData) (r : Route) (res : SwapResult)
    (hp1 : env.persistRoutingOk = true) (hrr : env.routeResult = some r)
    (hp2 : env.persistBuildingOk = true) (hp3 : env.persistSubmittedOk = true)
    (hsr : env.swapResult = some res) (hp4 : env.persistConfirmedOk = true)
    (rec : OrderRecord) :
    (applyPersists (ExecuteOrder env od).1 rec).status = Status.confirmed ∧
    (applyPersists (ExecuteOrder env od).1 rec).selectedDex = some r.dex ∧
    (applyPersists (ExecuteOrder env od).1 rec).executedPrice = some res.executedPrice ∧
    (applyPersists (ExecuteOrder env od).1 rec).txHash = some res.txHash ∧
    ((ExecuteOrder env od).1).filter
        (fun e => (fieldsWritten e).contains FieldName.selectedDex) =
      [Event.persist [(FieldName.status, DbValue.stat Status.building),
                      (FieldName.selectedDex, DbValue.str r.dex)]] ∧
    ((ExecuteOrder env od).1).filter
        (fun e => (fieldsWritten e).contains FieldName.executedPrice ||
          (fieldsWritten e).contains FieldName.txHash) =
      [Event.persist [(FieldName.status, DbValue.stat Status.confirmed),
                      (FieldName.txHash, DbValue.str res.txHash),
                      (FieldName.executedPrice, DbValue.num res.executedPrice)]] := by
  rcases env with ⟨pr, rr, pb, ps, sr, pc, pf⟩
  simp only [Env.persistRoutingOk] at hp1
  simp only [Env.routeResult] at hrr
  simp only [Env.persistBuildingOk] at hp2
  simp only [Env.persistSubmittedOk] at hp3
  simp only [Env.swapResult] at hsr
  simp only [Env.persistConfirmedOk] at hp4
  subst hp1 hrr hp2 hp3 hsr hp4
  refine ⟨?_, ?_, ?_, ?_, ?_, ?_⟩ <;>
    simp [ExecuteOrder, routingEvents, buildingEvents, submittedEvents, confirmedEvents,
      applyPersists, applyField, fieldsWritten]

/-- Witness for C5 at a concrete environment, order, route, result and
initial record. -/
theorem C5_success_record_witness :
    (applyPersists (ExecuteOrder
        ⟨true, some ⟨"raydium", 100, 3/1000⟩, true, true, some ⟨"0xabc", 99⟩, true, true⟩
        odETH).1
      ⟨"o1", "ETH", "USDC", 1, "swap", Status.pending, none, none, none, none⟩).status =
      Status.confirmed ∧
    (applyPersists (ExecuteOrder
        ⟨true, some ⟨"raydium", 100, 3/1000⟩, true, true, some ⟨"0xabc", 99⟩, true, true⟩
        odETH).1
      ⟨"o1", "ETH", "USDC", 1, "swap", Status.pending, none, none, none, none⟩).selectedDex =
      some "raydium" :=
  ⟨(C5_success_record ⟨true, some ⟨"raydium", 100, 3/1000⟩, true, true,
      some ⟨"0xabc", 99⟩, true, true⟩ odETH ⟨"raydium", 100, 3/1000⟩ ⟨"0xabc", 99⟩
      rfl rfl rfl rfl rfl rfl
      ⟨"o1", "ETH", "USDC", 1, "swap", Status.pending, none, none, none, none⟩).1,
   (C5_success_record ⟨true, some ⟨"raydium", 100, 3/1000⟩, true, true,
      some ⟨"0xabc", 99⟩, true, true⟩ odETH ⟨"raydium", 100, 3/1000⟩ ⟨"0xabc", 99⟩
      rfl rfl rfl rfl rfl rfl
      ⟨"o1", "ETH", "USDC", 1, "swap", Status.pending, none, none, none, none⟩).2.1⟩

/-- C8: every submission with an unsupported token, equal tokenIn and
tokenOut, or a non-positive amount is answered 400 at the validation
boundary with no side effect: no order row is created, no job is
enqueued, and the registry is unchanged. -/
theorem C8_invalid_rejected (uuid dbId : String) (m : OrderMap) (r : SwapRequest)
    (hbad : r.tokenIn ∉ tokens ∨ r.tokenOut ∉ tokens ∨ r.amount ≤ 0 ∨
      r.tokenIn = r.tokenOut) :
    (executeOrderHandler uuid dbId m r).1 = 400 ∧
    (executeOrderHandler uuid dbId m r).2.1 = [] ∧
    (executeOrderHandler uuid dbId m r).2.2 = m := by
  by_cases hv : requestSwapValid r = true
  · have hsplit := hv
    rw [requestSwapValid] at hsplit
    simp only [Bool.and_eq_true] at hsplit
    obtain ⟨⟨⟨-, hin⟩, hout⟩, hpos⟩ := hsplit
    rcases hbad with hb | hb | hb | hb
    · exact absurd (List.mem_of_elem_eq_true hin) hb
    · exact absurd (List.mem_of_elem_eq_true hout) hb
    · exact absurd (of_decide_eq_true hpos) (not_lt.mpr hb)
    · refine ⟨?_, ?_, ?_⟩ <;> simp [executeOrderHandler, hv, hb]
  · rw [Bool.not_eq_true] at hv
    refine ⟨?_, ?_, ?_⟩ <;> simp [executeOrderHandler, hv]

/-- Witness for C8 at a concrete equal-token request. -/
theorem C8_invalid_rejected_witness :
    (executeOrderHandler "u1" "db1" [] ⟨some "0xuser", "ETH", "ETH", 1⟩).1 = 400 ∧
    (executeOrderHandler "u1" "db1" [] ⟨some "0xuser", "ETH", "ETH", 1⟩).2.1 = [] ∧
    (executeOrderHandler "u1" "db1" [] ⟨some "0xuser", "ETH", "ETH", 1⟩).2.2 = [] :=
  C8_invalid_rejected "u1" "db1" [] ⟨some "0xuser", "ETH", "ETH", 1⟩
    (Or.inr (Or.inr (Or.inr rfl)))

/-- Helper: updating an entry in place preserves the key list. -/
lemma mapUpdate_keys (m : OrderMap) (k : String) (f : OrderEntry → OrderEntry) :
    (mapUpdate m k f).map Prod.fst = m.map Prod.fst := by
  induction m with
  | nil => rfl
  | cons kv rest ih =>
    rcases kv with ⟨k0, v0⟩
    by_cases h : k0 = k
    · simp [mapUpdate, h]
    · simp [mapUpdate, h, ih]

/-- Helper: looking up the updated key finds the updated entry. -/
lemma mapGet_mapUpdate_self (m : OrderMap) (k : String) (f : OrderEntry → OrderEntry)
    (e : OrderEntry) (h : mapGet m k = some e) :
    mapGet (mapUpdate m k f) k = some (f e) := by
  induction m with
  | nil => simp [mapGet] at h
  | cons kv rest ih =>
    rcases kv with ⟨k0, v0⟩
    by_cases hk : k0 = k
    · subst hk
      simp [mapGet] at h
      subst h
      simp [mapUpdate, mapGet]
    · simp [mapGet, hk] at h
      simp [mapUpdate, mapGet, hk]
      exact ih h

/-- Helper: updating one key leaves other keys' lookups unchanged. -/
lemma mapGet_mapUpdate_ne (m : OrderMap) (k : String) (f : OrderEntry → OrderEntry)
    (k' : String) (h : k' ≠ k) :
    mapGet (mapUpdate m k f) k' = mapGet m k' := by
  induction m with
  | nil => rfl
  | cons kv rest ih =>
    rcases kv with ⟨k0, v0⟩
    by_cases hk : k0 = k
    · subst hk
      have hne : ¬ k0 = k' := fun hc => h hc.symm
      simp [mapUpdate, mapGet, hne]
    · by_cases hc : k0 = k'
      · subst hc
        simp [mapUpdate, mapGet, hk]
      · simp [mapUpdate, mapGet, hk, hc, ih]

/-- Helper: appending a fresh entry makes its key found last. -/
lemma mapGet_append_single_self (m : OrderMap) (k : String) (v : OrderEntry)
    (h : mapGet m k = none) :
    mapGet (m ++ [(k, v)]) k = some v := by
  induction m with
  | nil => simp [mapGet]
  | cons kv rest ih =>
    rcases kv with ⟨k0, v0⟩
    by_cases hc : k0 = k
    · simp [mapGet, hc] at h
    · simp [mapGet, hc] at h ⊢
      exact ih h

/-- Helper: appending an entry leaves other keys' lookups unchanged. -/
lemma mapGet_append_single_ne (m : OrderMap) (k : String) (v : OrderEntry)
    (k' : String) (h : k' ≠ k) :
    mapGet (m ++ [(k, v)]) k' = mapGet m k' := by
  induction m with
  | nil =>
    have hne : ¬ k = k' := fun hc => h hc.symm
    simp [mapGet, hne]
  | cons kv rest ih =>
    rcases kv with ⟨k0, v0⟩
    by_cases hc : k0 = k'
    · simp [mapGet, hc]
    · simp [mapGet, hc, ih]

/-- Helper: after Map.set the written key maps to the written value. -/
lemma mapGet_mapSet_self (m : OrderMap) (k : String) (v : OrderEntry) :
    mapGet (mapSet m k v) k = some v := by
  rw [mapSet]
  cases h : mapGet m k with
  | none => exact mapGet_append_single_self m k v h
  | some e => exact mapGet_mapUpdate_self m k _ e h

/-- Helper: Map.set leaves other keys' lookups unchanged. -/
lemma mapGet_mapSet_ne (m : OrderMap) (k : String) (v : OrderEntry)
    (k' : String) (h : k' ≠ k) :
    mapGet (mapSet m k v) k' = mapGet m k' := by
  rw [mapSet]
  cases hg : mapGet m k with
  | none => exact mapGet_append_single_ne m k v k' h
  | some e => exact mapGet_mapUpdate_ne m k _ k' h

/-- C9 (amended): unsubscribing removes the handle from the order's
client set but never removes the order's entry from the registry: the
key list is unchanged, and the order's entry remains present with the
handle deleted — even when it was the last handle. -/
theorem C9_unsubscribe_keeps_entry (m : OrderMap) (orderId : String) (client : Nat) :
    (UnsubscribeFromOrderUpdates m orderId client).map Prod.fst = m.map Prod.fst ∧
    ∀ e, mapGet m orderId = some e →
      mapGet (UnsubscribeFromOrderUpdates m orderId client) orderId =
        some ⟨e.status, setDelete e.clients client⟩ := by
  constructor
  · rw [UnsubscribeFromOrderUpdates]
    cases mapGet m orderId with
    | none => rfl
    | some e => exact mapUpdate_keys m orderId _
  · intro e he
    rw [UnsubscribeFromOrderUpdates, he]
    exact mapGet_mapUpdate_self m orderId _ e he

/-- Witness for C9 (amended) at a concrete one-entry registry whose last
handle unsubscribes. -/
theorem C9_unsubscribe_keeps_entry_witness :
    mapGet (UnsubscribeFromOrderUpdates [("o1", ⟨"pending", [7]⟩)] "o1" 7) "o1" =
      some ⟨"pending", setDelete [7] 7⟩ :=
  (C9_unsubscribe_keeps_entry [("o1", ⟨"pending", [7]⟩)] "o1" 7).2
    ⟨"pending", [7]⟩ (by decide)

/-- C9 counterexample: with a single registered handle, unsubscribing
that last handle leaves the order's entry in the registry with an empty
client set — the registry still holds a mapping for an order with zero
remaining handles. -/
theorem C9_counterexample :
    UnsubscribeFromOrderUpdates [("o1", ⟨"pending", [7]⟩)] "o1" 7 =
      [("o1", ⟨"pending", []⟩)] ∧
    mapGet (UnsubscribeFromOrderUpdates [("o1", ⟨"pending", [7]⟩)] "o1" 7) "o1" =
      some ⟨"pending", []⟩ := by
  decide

/-- C10: subscribe and unsubscribe are silent no-ops for an orderId
absent from the registry — the registry is unchanged, so the handle is
never registered; and addOrderExecutionJob keys the registry entry by
the freshly generated UUID it returns (status pending, empty handle
set), leaving every other key's lookup unchanged, so the key is never a
caller-supplied identifier. -/
theorem C10_missing_key_noop :
    (∀ (m : OrderMap) (orderId : String) (client : Nat),
      mapGet m orderId = none →
        SubscribeToOrderUpdates m orderId client = m ∧
        UnsubscribeFromOrderUpdates m orderId client = m) ∧
    (∀ (uuid : String) (od : OrderData) (m : OrderMap),
      (addOrderExecutionJob uuid od m).1 = uuid ∧
      mapGet (addOrderExecutionJob uuid od m).2.1 uuid = some ⟨"pending", []⟩ ∧
      ∀ k, k ≠ uuid → mapGet (addOrderExecutionJob uuid od m).2.1 k = mapGet m k) := by
  constructor
  · intro m orderId client h
    constructor
    · rw [SubscribeToOrderUpdates, h]
    · rw [UnsubscribeFromOrderUpdates, h]
  · intro uuid od m
    exact ⟨rfl, mapGet_mapSet_self m uuid _, fun k hk => mapGet_mapSet_ne m uuid _ k hk⟩

/-- Witness for C10 at a concrete registry and an absent orderId. -/
theorem C10_missing_key_noop_witness :
    SubscribeToOrderUpdates [("a", ⟨"pending", []⟩)] "zzz" 7 =
      [("a", ⟨"pending", []⟩)] ∧
    UnsubscribeFromOrderUpdates [("a", ⟨"pending", []⟩)] "zzz" 7 =
      [("a", ⟨"pending", []⟩)] :=
  C10_missing_key_noop.1 [("a", ⟨"pending", []⟩)] "zzz" 7 (by decide)

/-- Helper: the fold selecting the best route returns the first quote of
minimal effective cost: the input list splits around the result, with
everything before it strictly costlier and everything after it at least
as costly. -/
lemma getBestRoute_first_min (first : Route) (rest : List Route) :
    ∃ pre post, first :: rest = pre ++ getBestRoute first rest :: post ∧
      (∀ q ∈ pre, effectiveCost (getBestRoute first rest) < effectiveCost q) ∧
      (∀ q ∈ post, effectiveCost (getBestRoute first rest) ≤ effectiveCost q) := by
  induction rest generalizing first with
  | nil => exact ⟨[], [], rfl, by simp, by simp⟩
  | cons q rest ih =>
    by_cases hq : effectiveCost q < effectiveCost first
    · have hstep : getBestRoute first (q :: rest) = getBestRoute q rest := by
        simp [getBestRoute, hq]
      obtain ⟨pre, post, hdec, hpre, hpost⟩ := ih q
      have hq1 : effectiveCost (getBestRoute q rest) ≤ effectiveCost q := by
        rcases pre with _ | ⟨p0, pre'⟩
        · simp only [List.nil_append] at hdec
          injection hdec with h1 h2
          exact le_of_eq (congrArg effectiveCost h1.symm)
        · simp only [List.cons_append] at hdec
          injection hdec with h1 h2
          have hp := hpre p0 (List.mem_cons_self p0 pre')
          rw [← h1] at hp
          exact le_of_lt hp
      refine ⟨first :: pre, post, ?_, ?_, ?_⟩
      · rw [hstep, List.cons_append, ← hdec]
      · intro x hx
        rw [hstep]
        rcases List.mem_cons.mp hx with h | h
        · subst h
          exact lt_of_le_of_lt hq1 hq
        · exact hpre x h
      · intro x hx
        rw [hstep]
        exact hpost x hx
    · have hstep : getBestRoute first (q :: rest) = getBestRoute first rest := by
        simp [getBestRoute, hq]
      have hfq : effectiveCost first ≤ effectiveCost q := not_lt.mp hq
      obtain ⟨pre, post, hdec, hpre, hpost⟩ := ih first
      rcases pre with _ | ⟨p0, pre'⟩
      · simp only [List.nil_append] at hdec
        injection hdec with h1 h2
        refine ⟨[], q :: rest, ?_, by simp, ?_⟩
        · rw [hstep, List.nil_append, ← h1]
        · intro x hx
          rw [hstep]
          rcases List.mem_cons.mp hx with h | h
          · subst h
            exact le_trans (le_of_eq (congrArg effectiveCost h1).symm) hfq
          · rw [h2] at h
            exact hpost x h
      · simp only [List.cons_append] at hdec
        injection hdec with h1 h2
        have hr0 := hpre p0 (List.mem_cons_self p0 pre')
        rw [← h1] at hr0
        refine ⟨first :: q :: pre', post, ?_, ?_, ?_⟩
        · rw [hstep, List.cons_append, List.cons_append, ← h2]
        · intro x hx
          rw [hstep]
          rcases List.mem_cons.mp hx with h | h
          · subst h
            exact hr0
          · rcases List.mem_cons.mp h with h' | h'
            · subst h'
              exact lt_of_lt_of_le hr0 hfq
            · exact hpre x (List.mem_cons_of_mem p0 h')
        · intro x hx
          rw [hstep]
          exact hpost x hx

/-- C3 (modelled from the spec, src/engine/services.ts being absent from
the sources): among the quotes listed in adapter declaration order, the
router's selection has minimal effective cost price * (1 + fee), and it
is the first quote attaining that minimum — every quote declared before
it costs strictly more, every quote after it at least as much, so ties
go to the earlier adapter; and on the concrete quotes A (price 100, fee
0.01, effective cost 101) and B (price 99, fee 0.02, effective cost
100.98) it selects B. -/
theorem C3_router_selects_min_cost :
    (∀ (first : Route) (rest : List Route),
      (∀ q ∈ first :: rest, effectiveCost (getBestRoute first rest) ≤ effectiveCost q) ∧
      ∃ pre post, first :: rest = pre ++ getBestRoute first rest :: post ∧
        (∀ q ∈ pre, effectiveCost (getBestRoute first rest) < effectiveCost q) ∧
        (∀ q ∈ post, effectiveCost (getBestRoute first rest) ≤ effectiveCost q)) ∧
    getBestRoute ⟨"A", 100, 1/100⟩ [⟨"B", 99, 1/50⟩] = ⟨"B", 99, 1/50⟩ := by
  constructor
  · intro first rest
    obtain ⟨pre, post, hdec, hpre, hpost⟩ := getBestRoute_first_min first rest
    refine ⟨?_, pre, post, hdec, hpre, hpost⟩
    intro x hx
    rw [hdec] at hx
    rcases List.mem_append.mp hx with h | h
    · exact le_of_lt (hpre x h)
    · rcases List.mem_cons.mp h with h' | h'
      · subst h'
        exact le_refl _
      · exact hpost x h'
  · have hlt : effectiveCost ⟨"B", 99, 1/50⟩ < effectiveCost ⟨"A", 100, 1/100⟩ := by
      norm_num [effectiveCost]
    rw [getBestRoute, List.foldl_cons, if_pos hlt, List.foldl_nil]

/-- Witness for C3 at the concrete quote pair from the spec. -/
theorem C3_router_selects_min_cost_witness :
    effectiveCost (getBestRoute ⟨"A", 100, 1/100⟩ [⟨"B", 99, 1/50⟩]) ≤
      effectiveCost ⟨"A", 100, 1/100⟩ :=
  (C3_router_selects_min_cost.1 ⟨"A", 100, 1/100⟩ [⟨"B", 99, 1/50⟩]).1
    ⟨"A", 100, 1/100⟩ (List.mem_cons_self _ _)

end EternaDex
